import Mathlib

/-!
Shallow embedding of the bevy-behaviour-tree core crate
(`crates/bevy-behaviour-tree-core/src`): the `Status` enum and the
`Behaviour` contract (`behaviour.rs`), the `Sequence` and `Select`
composites (`compositor.rs`), the `RunIf`, `RetryWhile` and `Retry`
decorators (`decorator.rs`), and the `BehaviourTrees` registry with its
`behaviour_scope` and `run_ticks` driver (`plugin.rs`).

Modelling conventions:
- `Entity` is an opaque identifier, embedded as `Nat`.
- The Bevy `World` is an opaque mutable context threaded explicitly: a
  child behaviour (a `Box<dyn Behaviour>` in the source) is embedded as a
  function `Entity → ω → Status × ω` over an arbitrary world type `ω`;
  internal state of leaves, when any, lives inside `ω`.
- `HashMap<Entity, usize>` is embedded extensionally as
  `Entity → Option Nat`; `HashSet<BehaviourId>` as a `List Nat` used as a
  set via membership.
- Rust panics (the `unwrap` of an empty slot, the out-of-range index
  assignment on restore) are embedded as `Option`, `none` meaning panic.
-/

/-- The tri-state result of running a behaviour, from `behaviour.rs`. -/
inductive Status where
  | Success
  | Failure
  | Running
deriving DecidableEq, Repr

/-- Entities are opaque identifiers; the core only uses them as map keys. -/
abbrev Entity := Nat

/-- A child behaviour: one tick takes the entity and the world and yields a
status and the mutated world. -/
abbrev ChildB (ω : Type) := Entity → ω → Status × ω

/-- HashMap insertion, extensionally: `m.insert(e, v)`. -/
def setIndex (m : Entity → Option Nat) (e : Entity) (v : Nat) : Entity → Option Nat :=
  fun x => if x = e then some v else m x

/-- The `Sequence` composite from `compositor.rs`: an ordered list of
children plus a per-subject cursor map (`indices`). -/
structure Sequence (ω : Type) where
  funcs : List (ChildB ω)
  indices : Entity → Option Nat

namespace Sequence

/-- `Sequence::index`: current cursor for `entity`, inserting 0 when the
entity has no entry yet (the map is mutated on read in the source). -/
def index (s : Sequence ω) (e : Entity) : Nat × Sequence ω :=
  match s.indices e with
  | some i => (i, s)
  | none => (0, { s with indices := setIndex s.indices e 0 })

/-- The `Sequence::reset` method: unconditionally inserts 0 for the entity. -/
def reset (s : Sequence ω) (e : Entity) : Sequence ω :=
  { s with indices := setIndex s.indices e 0 }

/-- The `Sequence::increase` method: increments the cursor if the entity has
an entry, and does nothing otherwise. -/
def increase (s : Sequence ω) (e : Entity) : Sequence ω :=
  match s.indices e with
  | some i => { s with indices := setIndex s.indices e (i + 1) }
  | none => s

/-- The `Sequence::behaviour_mut` method: the child at the entity's cursor,
if the cursor is in range, together with the (possibly mutated) map. -/
def behaviour_mut (s : Sequence ω) (e : Entity) : Option (ChildB ω) × Sequence ω :=
  match s.index e with
  | (i, s1) => (s1.funcs.get? i, s1)

/-- The `Behaviour::run` implementation for `Sequence` in `compositor.rs`. -/
def run (s : Sequence ω) (e : Entity) (w : ω) : Status × Sequence ω × ω :=
  match s.behaviour_mut e with
  | (some behaviour, s1) =>
    match behaviour e w with
    | (.Running, w2) => (.Running, s1, w2)
    | (.Failure, w2) => (.Failure, s1.reset e, w2)
    | (.Success, w2) => (.Running, s1.increase e, w2)
  | (none, s1) => (.Success, s1.reset e, w)

/-- Effective cursor of a subject: absent means 0 (spec vocabulary). -/
def cursor (s : Sequence ω) (e : Entity) : Nat :=
  (s.indices e).getD 0

/-- Iterate `run` for one fixed subject a number of times, discarding the
returned statuses and keeping the evolving state and world. -/
def iterate (s : Sequence ω) (e : Entity) (w : ω) : Nat → Sequence ω × ω
  | 0 => (s, w)
  | n + 1 =>
    match s.run e w with
    | (_, s1, w1) => iterate s1 e w1 n

end Sequence

/-- The `Select` composite from `compositor.rs`. -/
structure Select (ω : Type) where
  funcs : List (ChildB ω)
  indices : Entity → Option Nat

namespace Select

/-- `Select::index`, identical to `Sequence::index`. -/
def index (s : Select ω) (e : Entity) : Nat × Select ω :=
  match s.indices e with
  | some i => (i, s)
  | none => (0, { s with indices := setIndex s.indices e 0 })

/-- The `Select::reset` method: unlike `Sequence::reset`, it only writes 0
when the entity already has an entry (`get_mut` based). -/
def reset (s : Select ω) (e : Entity) : Select ω :=
  match s.indices e with
  | some _ => { s with indices := setIndex s.indices e 0 }
  | none => s

/-- The `Select::increase` method. -/
def increase (s : Select ω) (e : Entity) : Select ω :=
  match s.indices e with
  | some i => { s with indices := setIndex s.indices e (i + 1) }
  | none => s

/-- The `Select::behaviour_mut` method. -/
def behaviour_mut (s : Select ω) (e : Entity) : Option (ChildB ω) × Select ω :=
  match s.index e with
  | (i, s1) => (s1.funcs.get? i, s1)

/-- The `Behaviour::run` implementation for `Select` in `compositor.rs`. -/
def run (s : Select ω) (e : Entity) (w : ω) : Status × Select ω × ω :=
  match s.behaviour_mut e with
  | (some behaviour, s1) =>
    match behaviour e w with
    | (.Running, w2) => (.Running, s1, w2)
    | (.Failure, w2) => (.Running, s1.increase e, w2)
    | (.Success, w2) => (.Success, s1.reset e, w2)
  | (none, s1) => (.Failure, s1.reset e, w)

/-- Effective cursor of a subject: absent means 0. -/
def cursor (s : Select ω) (e : Entity) : Nat :=
  (s.indices e).getD 0

end Select

/-- The `RunIf` decorator from `decorator.rs`: a child behaviour, a boolean
condition system, and the status returned when the condition short-circuits.
The `initialize` methods of the child and of the condition system are
embedded as explicit world transformers. -/
structure RunIf (ω : Type) where
  func : ChildB ω
  func_init : ω → ω
  condition : Entity → ω → Bool × ω
  condition_init : ω → ω
  short_circuit : Status

namespace RunIf

/-- The `Behaviour::initialize` implementation for `RunIf` in `decorator.rs`:
`self.func.initialize(world); self.condition.initialize(world);`. -/
def init (r : RunIf ω) (w : ω) : ω :=
  r.condition_init (r.func_init w)

/-- The `Behaviour::run` implementation for `RunIf`. -/
def run (r : RunIf ω) (e : Entity) (w : ω) : Status × ω :=
  match r.condition e w with
  | (true, w1) => r.func e w1
  | (false, w1) => (r.short_circuit, w1)

end RunIf

/-- The `Decorator::run_if_with_return` constructor from `decorator.rs`. -/
def run_if_with_return (func : ChildB ω) (fi : ω → ω)
    (c : Entity → ω → Bool × ω) (ci : ω → ω) (short_circuit : Status) : RunIf ω :=
  { func := func, func_init := fi, condition := c, condition_init := ci,
    short_circuit := short_circuit }

/-- The `Decorator::run_if` constructor: delegates to `run_if_with_return`
with `Status::Success`. -/
def run_if (func : ChildB ω) (fi : ω → ω)
    (c : Entity → ω → Bool × ω) (ci : ω → ω) : RunIf ω :=
  run_if_with_return func fi c ci Status.Success

/-- The `RetryWhile` decorator from `decorator.rs`. -/
structure RetryWhile (ω : Type) where
  func : ChildB ω
  func_init : ω → ω
  condition : Entity → ω → Bool × ω
  condition_init : ω → ω

namespace RetryWhile

/-- The `Behaviour::initialize` implementation for `RetryWhile`:
`self.condition.initialize(world); self.func.initialize(world);`. -/
def init (r : RetryWhile ω) (w : ω) : ω :=
  r.func_init (r.condition_init w)

/-- The `Behaviour::run` implementation for `RetryWhile`. -/
def run (r : RetryWhile ω) (e : Entity) (w : ω) : Status × ω :=
  match r.condition e w with
  | (true, w1) =>
    match r.func e w1 with
    | (.Failure, w2) => (.Running, w2)
    | (.Running, w2) => (.Running, w2)
    | (.Success, w2) => (.Success, w2)
  | (false, w1) => (.Failure, w1)

end RetryWhile

/-- The `Retry` decorator from `decorator.rs`: a maximum try count, the
current try counter, and the child. -/
structure Retry (ω : Type) where
  max_tries : Nat
  tries : Nat
  func : ChildB ω
  func_init : ω → ω

namespace Retry

/-- The `Behaviour::initialize` implementation for `Retry`:
initializes the child and resets the counter to 0. -/
def init (r : Retry ω) (w : ω) : Retry ω × ω :=
  ({ r with tries := 0 }, r.func_init w)

/-- The `Behaviour::run` implementation for `Retry` in `decorator.rs`:
`self.tries += 1` happens before the `self.tries < self.max_tries` test. -/
def run (r : Retry ω) (e : Entity) (w : ω) : Status × Retry ω × ω :=
  match r.func e w with
  | (.Failure, w2) =>
    if r.tries + 1 < r.max_tries then (.Running, { r with tries := r.tries + 1 }, w2)
    else (.Failure, { r with tries := 0 }, w2)
  | (.Success, w2) => (.Success, { r with tries := 0 }, w2)
  | (.Running, w2) => (.Running, r, w2)

/-- State and world after a number of ticks for a fixed subject. -/
def iterate (r : Retry ω) (e : Entity) (w : ω) : Nat → Retry ω × ω
  | 0 => (r, w)
  | n + 1 =>
    match r.run e w with
    | (_, r1, w1) => iterate r1 e w1 n

/-- Status returned by the i-th tick (1-based) for a fixed subject. -/
def statusAt (r : Retry ω) (e : Entity) (w : ω) (i : Nat) : Status :=
  match r.iterate e w (i - 1) with
  | (r1, w1) => (r1.run e w1).1

end Retry

/-- The `BehaviourTrees` registry from `plugin.rs`: tree slots (vacated with
`std::mem::take` while a node runs, hence `Option`) and the set of handles
that completed one-time initialization. The node type `ν` is a parameter;
the driver instantiates it with an initialize-call counter. -/
structure BehaviourTrees (ν : Type) where
  trees : List (Option ν)
  initialized : List Nat
deriving DecidableEq

namespace BehaviourTrees

/-- The `BehaviourTrees::create` method: appends the node and returns its
index as the handle. -/
def create (ts : BehaviourTrees ν) (node : ν) : BehaviourTrees ν × Nat :=
  ({ ts with trees := ts.trees ++ [some node] }, ts.trees.length)

/-- The `BehaviourTrees::behaviour_scope` method: out-of-range handles are a
silent no-op; an in-range slot is taken (left `none`) and `unwrap`ped (a
`none` slot panics, embedded as the `none` result); the callback runs on the
vacated registry; the node is restored by index assignment afterwards (which
panics when the index is out of range of the callback's final tree list). -/
def behaviour_scope (ts : BehaviourTrees ν) (id : Nat)
    (scope : BehaviourTrees ν → ν → BehaviourTrees ν × ν) : Option (BehaviourTrees ν) :=
  match ts.trees.get? id with
  | none => some ts
  | some none => none
  | some (some node) =>
    match scope { ts with trees := ts.trees.set id none } node with
    | (ts2, node2) =>
      if id < ts2.trees.length then
        some { ts2 with trees := ts2.trees.set id (some node2) }
      else none

end BehaviourTrees

/-- The body of the closure passed to `behaviour_scope` by `run_ticks`:
if the handle has not been initialized, initialize the node (the node is an
initialize-call counter, so this is `node + 1`) and record the handle; then
`behaviour.run(entity, world)` runs, which does not touch the counter. -/
def tickScope (id : Nat) (ts : BehaviourTrees Nat) (node : Nat) : BehaviourTrees Nat × Nat :=
  if id ∈ ts.initialized then (ts, node)
  else ({ ts with initialized := ts.initialized.insert id }, node + 1)

/-- Stable insertion of a pair into a list sorted by handle: the pair goes
before the first entry with a strictly larger handle, after equal handles. -/
def insertPair (p : Entity × Nat) : List (Entity × Nat) → List (Entity × Nat)
  | [] => [p]
  | q :: rest => if q.2 ≤ p.2 then q :: insertPair p rest else p :: q :: rest

/-- The driver's `query.sort_by(|(_, id1), (_, id2)| id1.cmp(id2))`: a stable
sort by handle, ties keeping arrival order. -/
def sortByHandle : List (Entity × Nat) → List (Entity × Nat)
  | [] => []
  | p :: rest => insertPair p (sortByHandle rest)

/-- The `run_ticks` driver system from `plugin.rs` for one pass: collect the
active (entity, handle) pairs (given here as `query`), sort them by handle,
and process each through `behaviour_scope`. -/
def run_ticks (ts : BehaviourTrees Nat) (query : List (Entity × Nat)) :
    Option (BehaviourTrees Nat) :=
  (sortByHandle query).foldlM (fun acc p => acc.behaviour_scope p.2 (tickScope p.2)) ts

/-- A sequence of driver passes, each with its own active query. -/
def runPasses (ts : BehaviourTrees Nat) : List (List (Entity × Nat)) → Option (BehaviourTrees Nat)
  | [] => some ts
  | q :: rest =>
    match run_ticks ts q with
    | none => none
    | some ts1 => runPasses ts1 rest

/-- A fresh registry of `n` trees, none initialized, every initialize-call
counter at 0. -/
def initialTrees (n : Nat) : BehaviourTrees Nat :=
  { trees := List.replicate n (some 0), initialized := [] }

/-- The initialize-call counter stored at a handle, when the slot is filled. -/
def initCountAt (ts : BehaviourTrees Nat) (id : Nat) : Option Nat :=
  match ts.trees.get? id with
  | some (some c) => some c
  | some none => none
  | none => none

/-- A handle is referenced by a list of passes when some active pair of some
pass names it. -/
def referencedIn (passes : List (List (Entity × Nat))) (id : Nat) : Prop :=
  id ∈ (passes.flatten.map Prod.snd)

instance (passes : List (List (Entity × Nat))) (id : Nat) :
    Decidable (referencedIn passes id) := by
  unfold referencedIn
  infer_instance

/-- A concrete RunIf over a trace world: the child and condition initializers
log the tags 0 and 1 respectively, so the order of initialization is
observable in the trace. -/
def runIfInitTrace : RunIf (List Nat) :=
  { func := fun _ w => (Status.Success, w)
    func_init := fun w => w ++ [0]
    condition := fun _ w => (true, w)
    condition_init := fun w => w ++ [1]
    short_circuit := Status.Success }

/-- C9 counterexample: the claim says `RunIf::initialize` runs the condition
initializer first and the child initializer second; on the concrete
instrumented decorator `runIfInitTrace` and the empty trace, the code
produces the trace [0, 1] (child first), not the claimed [1, 0]. -/
theorem runIf_init_order_counterexample :
    runIfInitTrace.init [] = [0, 1] ∧
    runIfInitTrace.func_init (runIfInitTrace.condition_init []) = [1, 0] ∧
    runIfInitTrace.init [] ≠ runIfInitTrace.func_init (runIfInitTrace.condition_init []) := by
  refine ⟨rfl, rfl, ?_⟩
  decide

/-- C9 (amended): `RunIf::initialize` first initializes the child (`func`)
and then the condition function, in that order; in particular, with
initializers that log tags 0 (child) and 1 (condition), the trace comes out
child tag first. -/
theorem runIf_init_order :
    (∀ (ω : Type) (r : RunIf ω) (w : ω), r.init w = r.condition_init (r.func_init w)) ∧
    (∀ w : List Nat, runIfInitTrace.init w = w ++ [0, 1]) := by
  refine ⟨fun ω r w => rfl, fun w => ?_⟩
  simp [RunIf.init, runIfInitTrace]

/-- C6: when the condition evaluates to false, `RunIf::run` returns exactly
`short_circuit`, the world carries only the condition's own effects, and the
result is independent of the child (the child is never ticked); when the
condition evaluates to true, the child is ticked on the post-condition world
and its result is returned unchanged. Moreover `run_if` is exactly
`run_if_with_return` with `Status::Success` as the short-circuit. -/
theorem runIf_run_spec {ω : Type} (r : RunIf ω) (e : Entity) (w : ω) (b : Bool) (w1 : ω)
    (hc : r.condition e w = (b, w1)) :
    (b = false →
      r.run e w = (r.short_circuit, w1) ∧
      ∀ g gi, ({ r with func := g, func_init := gi } : RunIf ω).run e w = (r.short_circuit, w1)) ∧
    (b = true → r.run e w = r.func e w1) ∧
    (∀ (func : ChildB ω) (fi : ω → ω) (c : Entity → ω → Bool × ω) (ci : ω → ω),
      run_if func fi c ci = run_if_with_return func fi c ci Status.Success) := by
  refine ⟨?_, ?_, fun func fi c ci => rfl⟩
  · rintro rfl
    exact ⟨by simp [RunIf.run, hc], fun g gi => by simp [RunIf.run, hc]⟩
  · rintro rfl
    simp [RunIf.run, hc]

/-- Witness for C6 at a concrete decorator: the condition is false, the child
(which would bump the world) is not consulted, and the decorator returns its
`Status::Failure` short-circuit with the world untouched. -/
theorem runIf_run_spec_witness :
    ({ func := fun _ w => (Status.Success, w + 1), func_init := id,
       condition := fun _ w => (false, w), condition_init := id,
       short_circuit := Status.Failure } : RunIf Nat).run 0 7 = (Status.Failure, 7) :=
  ((runIf_run_spec
      { func := fun _ w => (Status.Success, w + 1), func_init := id,
        condition := fun _ w => (false, w), condition_init := id,
        short_circuit := Status.Failure } 0 7 false 7 rfl).1 rfl).1

/-- C5: when the condition evaluates to false, `RetryWhile::run` returns
Failure on that very tick, the world carries only the condition's effects,
and the result is independent of the child (the child is not ticked that
call); when the condition evaluates to true the child is ticked and Failure
or Running both collapse to Running while Success stays Success. -/
theorem retryWhile_run_spec {ω : Type} (r : RetryWhile ω) (e : Entity) (w : ω) (b : Bool)
    (w1 : ω) (hc : r.condition e w = (b, w1)) :
    (b = false →
      r.run e w = (Status.Failure, w1) ∧
      ∀ g gi,
        ({ r with func := g, func_init := gi } : RetryWhile ω).run e w = (Status.Failure, w1)) ∧
    (b = true →
      r.run e w =
        ((match (r.func e w1).1 with
          | .Failure => Status.Running
          | .Running => Status.Running
          | .Success => Status.Success), (r.func e w1).2)) := by
  constructor
  · rintro rfl
    exact ⟨by simp [RetryWhile.run, hc], fun g gi => by simp [RetryWhile.run, hc]⟩
  · rintro rfl
    simp only [RetryWhile.run, hc]
    rcases hf : r.func e w1 with ⟨st, w2⟩
    cases st <;> simp

/-- Witness for C5 at a concrete decorator: false condition aborts with
Failure without running the child; and a true-condition decorator whose
child fails yields Running. -/
theorem retryWhile_run_spec_witness :
    ({ func := fun _ w => (Status.Success, w + 1), func_init := id,
       condition := fun _ w => (false, w), condition_init := id } :
        RetryWhile Nat).run 0 3 = (Status.Failure, 3) ∧
    ({ func := fun _ w => (Status.Failure, w + 1), func_init := id,
       condition := fun _ w => (true, w), condition_init := id } :
        RetryWhile Nat).run 0 3 = (Status.Running, 4) := by
  constructor
  · exact ((retryWhile_run_spec
      { func := fun _ w => (Status.Success, w + 1), func_init := id,
        condition := fun _ w => (false, w), condition_init := id } 0 3 false 3 rfl).1 rfl).1
  · have h := (retryWhile_run_spec
      { func := fun _ w => (Status.Failure, w + 1), func_init := id,
        condition := fun _ w => (true, w), condition_init := id } 0 3 true 3 rfl).2 rfl
    simpa using h

/-- C4: `Retry::run` ticks the child once on every call; on child Failure
the counter is incremented and the decorator returns Running when the
incremented counter is still below `max_tries`, otherwise it resets the
counter to 0 and returns Failure; child Success resets the counter and is
returned; child Running is returned with the counter untouched. With
`max_tries = 0` and a fresh counter, the very first child Failure yields
immediate Failure. -/
theorem retry_run_spec {ω : Type} (r : Retry ω) (e : Entity) (w : ω) :
    (∀ w2, r.func e w = (Status.Failure, w2) →
      r.run e w =
        (if r.tries + 1 < r.max_tries then (Status.Running, { r with tries := r.tries + 1 }, w2)
         else (Status.Failure, { r with tries := 0 }, w2))) ∧
    (∀ w2, r.func e w = (Status.Success, w2) →
      r.run e w = (Status.Success, { r with tries := 0 }, w2)) ∧
    (∀ w2, r.func e w = (Status.Running, w2) → r.run e w = (Status.Running, r, w2)) ∧
    (r.max_tries = 0 → r.tries = 0 → ∀ w2, r.func e w = (Status.Failure, w2) →
      r.run e w = (Status.Failure, { r with tries := 0 }, w2)) := by
  refine ⟨?_, ?_, ?_, ?_⟩
  · intro w2 hf
    simp [Retry.run, hf]
  · intro w2 hf
    simp [Retry.run, hf]
  · intro w2 hf
    simp [Retry.run, hf]
  · intro h0 _ w2 hf
    simp [Retry.run, hf, h0]

/-- Witness for C4 at a concrete decorator with `max_tries = 0`: the first
child Failure yields immediate Failure with the counter reset. -/
theorem retry_run_spec_witness :
    ({ max_tries := 0, tries := 0, func := fun _ w => (Status.Failure, w + 1),
       func_init := id } : Retry Nat).run 0 5 =
      (Status.Failure,
        { max_tries := 0, tries := 0, func := fun _ w => (Status.Failure, w + 1),
          func_init := id }, 6) :=
  (retry_run_spec
    { max_tries := 0, tries := 0, func := fun _ w => (Status.Failure, w + 1),
      func_init := id } 0 5).2.2.2 rfl rfl 6 rfl

/-- A child that fails on its first `k` ticks and succeeds afterwards, over
a world counting how often the child has been ticked. -/
def failNTimes (k : Nat) : ChildB Nat :=
  fun _ w => (if w < k then Status.Failure else Status.Success, w + 1)

/-- A fresh `retry(n)` decorator around `failNTimes k`. -/
def retryOn (n k : Nat) : Retry Nat :=
  { max_tries := n, tries := 0, func := failNTimes k, func_init := id }

theorem retry_iterate_fail_inv (n k : Nat) (hkn : k < n) :
    ∀ j m, m + j ≤ k →
      Retry.iterate { max_tries := n, tries := m, func := failNTimes k, func_init := id }
          0 m j =
        ({ max_tries := n, tries := m + j, func := failNTimes k, func_init := id }, m + j) := by
  intro j
  induction j with
  | zero => intro m _; simp [Retry.iterate]
  | succ i ih =>
    intro m hm
    have hmk : m < k := by omega
    have hmn : m + 1 < n := by omega
    simp only [Retry.iterate, Retry.run, failNTimes, if_pos hmk, if_pos hmn]
    have := ih (m + 1) (by omega)
    rw [this, show m + (i + 1) = m + 1 + i by omega]

/-- C8 counterexample: the claim, read literally (the child fails exactly
k times, then succeeds), predicts Success on the kth tick whenever
k − 1 < n. With n = 2 and k = 1 (so k − 1 = 0 < 2), a child that fails once
and then succeeds makes retry(2) return Running on tick 1, not Success;
Success only arrives on tick 2. -/
theorem retry_multi_tick_counterexample :
    Retry.statusAt (retryOn 2 1) 0 0 1 = Status.Running ∧
    Retry.statusAt (retryOn 2 1) 0 0 1 ≠ Status.Success ∧
    Retry.statusAt (retryOn 2 1) 0 0 2 = Status.Success := by
  refine ⟨?_, ?_, ?_⟩ <;> decide

/-- C8 (amended): for every n and every k with k < n, retry(n) around a
child that fails exactly k times and then succeeds returns Running on each
of the first k ticks and Success on tick k + 1. -/
theorem retry_multi_tick (n k : Nat) (hkn : k < n) :
    (∀ i, 1 ≤ i → i ≤ k → Retry.statusAt (retryOn n k) 0 0 i = Status.Running) ∧
    Retry.statusAt (retryOn n k) 0 0 (k + 1) = Status.Success := by
  constructor
  · intro i h1 hik
    unfold Retry.statusAt
    have hiter := retry_iterate_fail_inv n k hkn (i - 1) 0 (by omega)
    simp only [retryOn]
    rw [hiter]
    have ha : i - 1 < k := by omega
    have hb : i - 1 + 1 < n := by omega
    simp [Retry.run, failNTimes, ha, hb]
  · unfold Retry.statusAt
    have hiter := retry_iterate_fail_inv n k hkn k 0 (by omega)
    simp only [retryOn]
    rw [show k + 1 - 1 = k from rfl, hiter]
    have ha : ¬ (k < k) := by omega
    simp [Retry.run, failNTimes, ha]

/-- Witness for C8 with n = 3, k = 2: ticks 1 and 2 return Running, tick 3
returns Success. -/
theorem retry_multi_tick_witness :
    Retry.statusAt (retryOn 3 2) 0 0 1 = Status.Running ∧
    Retry.statusAt (retryOn 3 2) 0 0 2 = Status.Running ∧
    Retry.statusAt (retryOn 3 2) 0 0 3 = Status.Success := by
  have h := retry_multi_tick 3 2 (by decide)
  exact ⟨h.1 1 (by decide) (by decide), h.1 2 (by decide) (by decide), h.2⟩

theorem setIndex_same (m : Entity → Option Nat) (e : Entity) (v : Nat) :
    setIndex m e v e = some v := by
  simp [setIndex]

theorem setIndex_other (m : Entity → Option Nat) (e x : Entity) (v : Nat) (h : x ≠ e) :
    setIndex m e v x = m x := by
  simp [setIndex, h]

theorem setIndex_setIndex (m : Entity → Option Nat) (e : Entity) (v v' : Nat) :
    setIndex (setIndex m e v) e v' = setIndex m e v' := by
  funext x
  by_cases h : x = e <;> simp [setIndex, h]

theorem setIndex_self (m : Entity → Option Nat) (e : Entity) (i : Nat) (h : m e = some i) :
    setIndex m e i = m := by
  funext x
  by_cases hx : x = e <;> simp [setIndex, hx, h.symm]

/-- C2: the Sequence tick algorithm. When the subject's effective cursor
(absent meaning 0) indexes a valid child, exactly that child is ticked:
child Running leaves the cursor at its current value and returns Running;
child Failure writes the cursor to 0 and returns Failure; child Success
writes the cursor to its value plus one and returns Running, not Success.
When the cursor is past the last child, the cursor is written to 0 and
Success is returned with the world untouched (no child is ticked). -/
theorem sequence_tick_algorithm {ω : Type} (s : Sequence ω) (e : Entity) (w : ω) :
    (∀ child, s.funcs.get? (s.cursor e) = some child →
      s.run e w =
        (match child e w with
         | (.Running, w2) =>
            (.Running, { s with indices := setIndex s.indices e (s.cursor e) }, w2)
         | (.Failure, w2) => (.Failure, { s with indices := setIndex s.indices e 0 }, w2)
         | (.Success, w2) =>
            (.Running, { s with indices := setIndex s.indices e (s.cursor e + 1) }, w2))) ∧
    (s.funcs.get? (s.cursor e) = none →
      s.run e w = (.Success, { s with indices := setIndex s.indices e 0 }, w)) := by
  obtain ⟨funcs, idx⟩ := s
  constructor
  · intro child hchild
    rcases hm : idx e with _ | i
    · have hc : Sequence.cursor ⟨funcs, idx⟩ e = 0 := by simp [Sequence.cursor, hm]
      rw [hc] at hchild
      simp only [Sequence.cursor, hm] at hchild ⊢
      simp only [Sequence.run, Sequence.behaviour_mut, Sequence.index, hm]
      simp only [setIndex_same, hchild, Option.getD]
      rcases hcw : child e w with ⟨st, w2⟩
      cases st <;>
        simp [Sequence.reset, Sequence.increase, setIndex_same, setIndex_setIndex]
    · have hc : Sequence.cursor ⟨funcs, idx⟩ e = i := by simp [Sequence.cursor, hm]
      rw [hc] at hchild ⊢
      simp only [Sequence.cursor] at hchild ⊢
      simp only [Sequence.run, Sequence.behaviour_mut, Sequence.index, hm]
      simp only [hchild]
      rcases hcw : child e w with ⟨st, w2⟩
      cases st <;>
        simp [Sequence.reset, Sequence.increase, hm, setIndex_self _ _ _ hm,
          setIndex_setIndex]
  · intro hnone
    rcases hm : idx e with _ | i
    · have hc : Sequence.cursor ⟨funcs, idx⟩ e = 0 := by simp [Sequence.cursor, hm]
      rw [hc] at hnone
      rw [List.get?_eq_getElem?] at hnone
      simp [Sequence.run, Sequence.behaviour_mut, Sequence.index, hm, hnone,
        Sequence.reset, setIndex_setIndex]
    · have hc : Sequence.cursor ⟨funcs, idx⟩ e = i := by simp [Sequence.cursor, hm]
      rw [hc] at hnone
      rw [List.get?_eq_getElem?] at hnone
      simp [Sequence.run, Sequence.behaviour_mut, Sequence.index, hm, hnone,
        Sequence.reset, setIndex_setIndex, setIndex_self _ _ _ hm]

/-- Witness for C2 at a concrete one-child Sequence over a counter world:
the fresh cursor indexes the child, the child succeeds bumping the world,
and the composite returns Running with the cursor advanced to 1. -/
theorem sequence_tick_algorithm_witness :
    (Sequence.run { funcs := [fun _ w => (Status.Success, w + 1)], indices := fun _ => none }
        0 (10 : Nat)) =
      (Status.Running,
        { funcs := [fun _ w => (Status.Success, w + 1)],
          indices := setIndex (fun _ => none) 0 1 }, 11) := by
  have h := (sequence_tick_algorithm
      { funcs := [fun _ w => (Status.Success, w + 1)], indices := fun _ => none } 0 (10 : Nat)).1
      (fun _ w => (Status.Success, w + 1)) rfl
  simpa [Sequence.cursor] using h

theorem sequence_run_frame {ω : Type} (s : Sequence ω) (e : Entity) (w : ω) :
    (s.run e w).2.1.funcs = s.funcs ∧
    ∀ b, b ≠ e → (s.run e w).2.1.indices b = s.indices b := by
  obtain ⟨funcs, idx⟩ := s
  simp only [Sequence.run, Sequence.behaviour_mut, Sequence.index]
  rcases hm : idx e with _ | i <;> simp only
  · rcases hg : funcs.get? 0 with _ | child <;> simp only [hg]
    · simp [Sequence.reset, setIndex_setIndex]
      intro b hb
      simp [setIndex_other _ _ _ _ hb]
    · rcases hcw : child e w with ⟨st, w2⟩
      cases st <;>
        simp [Sequence.reset, Sequence.increase, setIndex_same, setIndex_setIndex] <;>
        intro b hb <;> simp [setIndex_other _ _ _ _ hb]
  · rcases hg : funcs.get? i with _ | child <;> simp only [hg]
    · simp [Sequence.reset]
      intro b hb
      simp [setIndex_other _ _ _ _ hb]
    · rcases hcw : child e w with ⟨st, w2⟩
      cases st <;> simp [Sequence.reset, Sequence.increase, hm] <;>
        intro b hb <;> simp [setIndex_other _ _ _ _ hb]

theorem sequence_run_world_pure {ω : Type} (s : Sequence ω) (e : Entity) (w : ω)
    (hpure : ∀ f ∈ s.funcs, ∀ x v, (f x v).2 = v) :
    (s.run e w).2.2 = w := by
  obtain ⟨funcs, idx⟩ := s
  simp only [Sequence.run, Sequence.behaviour_mut, Sequence.index]
  rcases hm : idx e with _ | i <;> simp only
  · rcases hg : funcs.get? 0 with _ | child <;> simp only [hg]
    rcases hcw : child e w with ⟨st, w2⟩
    have hmem : child ∈ funcs := List.get?_mem hg
    have := hpure child hmem e w
    rw [hcw] at this
    cases st <;> simpa using this.symm ▸ rfl
  · rcases hg : funcs.get? i with _ | child <;> simp only [hg]
    rcases hcw : child e w with ⟨st, w2⟩
    have hmem : child ∈ funcs := List.get?_mem hg
    have := hpure child hmem e w
    rw [hcw] at this
    cases st <;> simpa using this.symm ▸ rfl

theorem sequence_run_status_congr {ω : Type} (s1 s2 : Sequence ω) (b : Entity) (w : ω)
    (hf : s1.funcs = s2.funcs) (hi : s1.indices b = s2.indices b) :
    (s1.run b w).1 = (s2.run b w).1 := by
  obtain ⟨funcs1, idx1⟩ := s1
  obtain ⟨funcs2, idx2⟩ := s2
  simp only at hf hi
  subst hf
  simp only [Sequence.run, Sequence.behaviour_mut, Sequence.index, hi]
  rcases idx2 b with _ | i <;> simp only
  · rcases hg : funcs1.get? 0 with _ | child <;> simp only [hg]
    rcases hcw : child b w with ⟨st, w2⟩
    cases st <;> simp
  · rcases hg : funcs1.get? i with _ | child <;> simp only [hg]
    rcases hcw : child b w with ⟨st, w2⟩
    cases st <;> simp

/-- C1: per-subject cursor isolation for Sequence. For any two distinct
subjects A and B, any number of ticks performed for A leaves B's entry in
the subject-to-index map unchanged; when the children hold no state outside
the composite (world-pure children, per the spec's composite invariant), the
world is also unchanged, and hence B's next tick returns the same status as
it would have before A's ticks. -/
theorem sequence_subject_isolation {ω : Type} (s : Sequence ω) (A B : Entity) (w : ω)
    (k : Nat) (hAB : B ≠ A) (hpure : ∀ f ∈ s.funcs, ∀ x v, (f x v).2 = v) :
    (s.iterate A w k).1.indices B = s.indices B ∧
    (s.iterate A w k).2 = w ∧
    ((s.iterate A w k).1.run B (s.iterate A w k).2).1 = (s.run B w).1 := by
  have main : ∀ (k : Nat) (s : Sequence ω) (w : ω),
      (∀ f ∈ s.funcs, ∀ x v, (f x v).2 = v) →
      (s.iterate A w k).1.funcs = s.funcs ∧
      (s.iterate A w k).1.indices B = s.indices B ∧
      (s.iterate A w k).2 = w := by
    intro k
    induction k with
    | zero => intro s w _; exact ⟨rfl, rfl, rfl⟩
    | succ n ih =>
      intro s w hp
      simp only [Sequence.iterate]
      rcases hr : s.run A w with ⟨st, s1, w1⟩
      have hframe := sequence_run_frame s A w
      rw [hr] at hframe
      have hw : w1 = w := by
        have := sequence_run_world_pure s A w hp
        rw [hr] at this
        exact this
      have hp1 : ∀ f ∈ s1.funcs, ∀ x v, (f x v).2 = v := by
        rw [hframe.1]; exact hp
      have hih := ih s1 w1 hp1
      refine ⟨hih.1.trans hframe.1, hih.2.1.trans (hframe.2 B hAB), hih.2.2.trans hw⟩
  have h := main k s w hpure
  refine ⟨h.2.1, h.2.2, ?_⟩
  rw [h.2.2]
  exact sequence_run_status_congr (s.iterate A w k).1 s B w h.1 h.2.1

/-- Witness for C1: a two-child Sequence ticked three times for subject 0
leaves subject 1's (absent) cursor entry and next tick status untouched. -/
theorem sequence_subject_isolation_witness :
    ((Sequence.iterate
        { funcs := [fun _ w => (Status.Success, w), fun _ w => (Status.Failure, w)],
          indices := fun _ => none } 0 (3 : Nat) 3).1.indices 1 = none) ∧
    ((Sequence.iterate
        { funcs := [fun _ w => (Status.Success, w), fun _ w => (Status.Failure, w)],
          indices := fun _ => none } 0 (3 : Nat) 3).2 = 3) := by
  have h := sequence_subject_isolation
    { funcs := [fun _ w => (Status.Success, w), fun _ w => (Status.Failure, w)],
      indices := fun _ => none } 0 1 (3 : Nat) 3 (by decide)
    (by intro f hf x v; fin_cases hf <;> rfl)
  exact ⟨h.1, h.2.1⟩

/-- The concrete Select scenario of C3: two always-failing children, one
always-succeeding child, and an arbitrary fourth child, over a trace world
logging which child indices get ticked. -/
def selChildren (fourth : ChildB (List Nat)) : List (ChildB (List Nat)) :=
  [fun _ w => (Status.Failure, w ++ [0]),
   fun _ w => (Status.Failure, w ++ [1]),
   fun _ w => (Status.Success, w ++ [2]),
   fourth]

/-- C3: the Select tick algorithm. When the subject's effective cursor
indexes a valid child, exactly that child is ticked: child Running returns
Running with the cursor kept; child Failure advances the cursor by one and
returns Running; child Success writes the cursor to 0 and returns Success.
When the cursor is past the last child, the cursor is written to 0 and
Failure is returned with the world untouched. Moreover, for the concrete
Select of [always-Failure, always-Failure, always-Success, fourth], ticks 1
and 2 return Running with the cursor at 1 then 2, tick 3 returns Success
with the cursor reset to 0, and for every choice of the fourth child the
tick trace is exactly [0, 1, 2]: the fourth child is never ticked. -/
theorem select_tick_algorithm :
    (∀ (ω : Type) (s : Select ω) (e : Entity) (w : ω),
      (∀ child, s.funcs.get? (s.cursor e) = some child →
        s.run e w =
          (match child e w with
           | (.Running, w2) =>
              (.Running, { s with indices := setIndex s.indices e (s.cursor e) }, w2)
           | (.Failure, w2) =>
              (.Running, { s with indices := setIndex s.indices e (s.cursor e + 1) }, w2)
           | (.Success, w2) => (.Success, { s with indices := setIndex s.indices e 0 }, w2))) ∧
      (s.funcs.get? (s.cursor e) = none →
        s.run e w = (.Failure, { s with indices := setIndex s.indices e 0 }, w))) ∧
    (∀ fourth : ChildB (List Nat),
      ({ funcs := selChildren fourth, indices := fun _ => none } : Select (List Nat)).run 0 [] =
        (Status.Running,
          { funcs := selChildren fourth, indices := setIndex (fun _ => none) 0 1 }, [0]) ∧
      ({ funcs := selChildren fourth, indices := setIndex (fun _ => none) 0 1 } :
          Select (List Nat)).run 0 [0] =
        (Status.Running,
          { funcs := selChildren fourth, indices := setIndex (fun _ => none) 0 2 }, [0, 1]) ∧
      ({ funcs := selChildren fourth, indices := setIndex (fun _ => none) 0 2 } :
          Select (List Nat)).run 0 [0, 1] =
        (Status.Success,
          { funcs := selChildren fourth, indices := setIndex (fun _ => none) 0 0 },
          [0, 1, 2])) := by
  constructor
  · intro ω s e w
    obtain ⟨funcs, idx⟩ := s
    constructor
    · intro child hchild
      rcases hm : idx e with _ | i
      · have hc : Select.cursor ⟨funcs, idx⟩ e = 0 := by simp [Select.cursor, hm]
        rw [hc] at hchild
        simp only [Select.cursor, hm] at hchild ⊢
        simp only [Select.run, Select.behaviour_mut, Select.index, hm]
        simp only [setIndex_same, hchild, Option.getD]
        rcases hcw : child e w with ⟨st, w2⟩
        cases st <;>
          simp [Select.reset, Select.increase, setIndex_same, setIndex_setIndex]
      · have hc : Select.cursor ⟨funcs, idx⟩ e = i := by simp [Select.cursor, hm]
        rw [hc] at hchild ⊢
        simp only [Select.cursor] at hchild ⊢
        simp only [Select.run, Select.behaviour_mut, Select.index, hm]
        simp only [hchild]
        rcases hcw : child e w with ⟨st, w2⟩
        cases st <;>
          simp [Select.reset, Select.increase, hm, setIndex_self _ _ _ hm,
            setIndex_setIndex]
    · intro hnone
      rcases hm : idx e with _ | i
      · have hc : Select.cursor ⟨funcs, idx⟩ e = 0 := by simp [Select.cursor, hm]
        rw [hc] at hnone
        rw [List.get?_eq_getElem?] at hnone
        simp [Select.run, Select.behaviour_mut, Select.index, hm, hnone,
          Select.reset, setIndex_same, setIndex_setIndex]
      · have hc : Select.cursor ⟨funcs, idx⟩ e = i := by simp [Select.cursor, hm]
        rw [hc] at hnone
        rw [List.get?_eq_getElem?] at hnone
        simp [Select.run, Select.behaviour_mut, Select.index, hm, hnone,
          Select.reset, setIndex_self _ _ _ hm, setIndex_setIndex]
  · intro fourth
    refine ⟨?_, ?_, ?_⟩ <;>
      simp [Select.run, Select.behaviour_mut, Select.index, Select.increase, Select.reset,
        selChildren, setIndex_same, setIndex_setIndex]

/-- Witness for C3 at a concrete two-child Select over a counter world: the
cursor (at 1 after a previous failure) indexes the succeeding second child,
so the composite returns Success and resets the cursor to 0. -/
theorem select_tick_algorithm_witness :
    (Select.run
        { funcs := [fun _ w => (Status.Failure, w + 1), fun _ w => (Status.Success, w + 1)],
          indices := setIndex (fun _ => none) 0 1 } 0 (20 : Nat)) =
      (Status.Success,
        { funcs := [fun _ w => (Status.Failure, w + 1), fun _ w => (Status.Success, w + 1)],
          indices := setIndex (fun _ => none) 0 0 }, 21) := by
  have h := (select_tick_algorithm.1 Nat
      { funcs := [fun _ w => (Status.Failure, w + 1), fun _ w => (Status.Success, w + 1)],
        indices := setIndex (fun _ => none) 0 1 } 0 (20 : Nat)).1
      (fun _ w => (Status.Success, w + 1)) (by simp [Select.cursor, setIndex_same])
  simpa [Select.cursor, setIndex_same, setIndex_setIndex] using h

theorem get?_lt_length {α : Type} (l : List α) (n : Nat) (a : α) (h : l.get? n = some a) :
    n < l.length := by
  by_contra hc
  push_neg at hc
  rw [List.get?_eq_none.mpr hc] at h
  exact Option.noConfusion h

/-- C10: during the callback of `behaviour_scope(id, f)` the slot for `id`
holds `none` (it was vacated with `mem::take`), and the node is written back
only after the callback returns, so the callback's final node value is what
ends up in the slot; for an id with no slot at all the call is a silent
no-op; but re-entering `behaviour_scope` with the same id while the slot is
vacated hits the `unwrap` of the empty slot, which panics (embedded as
`none`) rather than being a no-op. -/
theorem behaviour_scope_spec {ν : Type} (ts : BehaviourTrees ν) (id : Nat) (node : ν)
    (f : BehaviourTrees ν → ν → BehaviourTrees ν × ν)
    (h : ts.trees.get? id = some (some node)) :
    (({ ts with trees := ts.trees.set id none } : BehaviourTrees ν).trees.get? id =
      some none) ∧
    (ts.behaviour_scope id f =
      (match f { ts with trees := ts.trees.set id none } node with
       | (ts2, node2) =>
         if id < ts2.trees.length then
           some { ts2 with trees := ts2.trees.set id (some node2) }
         else none)) ∧
    (∀ ts2 node2, f { ts with trees := ts.trees.set id none } node = (ts2, node2) →
      id < ts2.trees.length →
      ∃ out, ts.behaviour_scope id f = some out ∧ out.trees.get? id = some (some node2)) ∧
    (∀ g, ({ ts with trees := ts.trees.set id none } : BehaviourTrees ν).behaviour_scope id g
        = none) ∧
    (∀ (ts3 : BehaviourTrees ν) (id3 : Nat)
        (g : BehaviourTrees ν → ν → BehaviourTrees ν × ν),
      ts3.trees.get? id3 = none → ts3.behaviour_scope id3 g = some ts3) := by
  have hlt : id < ts.trees.length := get?_lt_length _ _ _ h
  have hvac : ({ ts with trees := ts.trees.set id none } : BehaviourTrees ν).trees.get? id =
      some none := by
    simpa using List.getElem?_set_eq_of_lt none hlt
  refine ⟨hvac, ?_, ?_, ?_, ?_⟩
  · simp only [BehaviourTrees.behaviour_scope, h]
  · intro ts2 node2 hf hlen
    simp only [BehaviourTrees.behaviour_scope, h, hf, if_pos hlen]
    refine ⟨_, rfl, ?_⟩
    simpa using List.getElem?_set_eq_of_lt (some node2) hlen
  · intro g
    simp only [BehaviourTrees.behaviour_scope, hvac]
  · intro ts3 id3 g hnone
    simp only [BehaviourTrees.behaviour_scope, hnone]

/-- Witness for C10 at a one-slot registry holding the node 5: the vacated
slot reads `some none`, a callback bumping the node restores 6 into the
slot, re-entry on the vacated registry panics, and an out-of-range id is a
silent no-op. -/
theorem behaviour_scope_spec_witness :
    (({ trees := [some 5], initialized := [] } : BehaviourTrees Nat).behaviour_scope 0
        (fun t n => (t, n + 1)) =
      some { trees := [some 6], initialized := [] }) ∧
    (({ trees := [none], initialized := [] } : BehaviourTrees Nat).behaviour_scope 0
        (fun t n => (t, n + 1)) = none) ∧
    (({ trees := [some 5], initialized := [] } : BehaviourTrees Nat).behaviour_scope 3
        (fun t n => (t, n + 1)) = some { trees := [some 5], initialized := [] }) := by
  have h := behaviour_scope_spec ({ trees := [some 5], initialized := [] } : BehaviourTrees Nat)
    0 5 (fun t n => (t, n + 1)) rfl
  refine ⟨?_, ?_, ?_⟩
  · rw [h.2.1]
    decide
  · have hre := h.2.2.2.1 (fun t n => (t, n + 1))
    simpa using hre
  · exact h.2.2.2.2 { trees := [some 5], initialized := [] } 3 (fun t n => (t, n + 1)) rfl

theorem mem_insertPair (a p : Entity × Nat) (L : List (Entity × Nat)) :
    a ∈ insertPair p L ↔ a = p ∨ a ∈ L := by
  induction L with
  | nil => simp [insertPair]
  | cons q rest ih =>
    simp only [insertPair]
    by_cases h : q.2 ≤ p.2
    · rw [if_pos h]
      simp only [List.mem_cons, ih]
      tauto
    · rw [if_neg h]
      simp only [List.mem_cons]

theorem mem_sortByHandle (a : Entity × Nat) (L : List (Entity × Nat)) :
    a ∈ sortByHandle L ↔ a ∈ L := by
  induction L with
  | nil => simp [sortByHandle]
  | cons p rest ih => simp [sortByHandle, mem_insertPair, ih]

/-- The driver invariant: the registry has `n` slots, every slot is filled
with a counter that is 1 exactly when its handle is in the initialized set,
and the initialized set only holds valid handles. -/
def RegInv (n : Nat) (ts : BehaviourTrees Nat) : Prop :=
  ts.trees.length = n ∧
  (∀ id, id < n →
    ts.trees.get? id = some (some (if id ∈ ts.initialized then 1 else 0))) ∧
  (∀ id ∈ ts.initialized, id < n)

theorem scope_tick_step (n : Nat) (ts : BehaviourTrees Nat) (id : Nat) (hinv : RegInv n ts) :
    ∃ ts', ts.behaviour_scope id (tickScope id) = some ts' ∧ RegInv n ts' ∧
      (∀ x, x ∈ ts'.initialized ↔ x ∈ ts.initialized ∨ (id < n ∧ x = id)) := by
  obtain ⟨hlen, hsl, hmem⟩ := hinv
  by_cases hid : id < n
  · have hget := hsl id hid
    have hlt : id < ts.trees.length := by omega
    by_cases hin : id ∈ ts.initialized
    · refine ⟨{ ts with trees := (ts.trees.set id none).set id (some (if id ∈ ts.initialized then 1 else 0)) }, ?_, ?_, ?_⟩
      · simp only [BehaviourTrees.behaviour_scope, hget, tickScope, if_pos hin]
        rw [if_pos (by simpa using hlt)]
      · rw [List.set_set]
        refine ⟨by simpa using hlen, fun x hx => ?_, hmem⟩
        by_cases hxi : x = id
        · subst hxi
          rw [List.get?_eq_getElem?, List.getElem?_set_eq_of_lt _ hlt]
        · rw [List.get?_eq_getElem?, List.getElem?_set_ne (fun hc => hxi hc.symm),
            ← List.get?_eq_getElem?]
          exact hsl x hx
      · intro x
        simp only
        constructor
        · exact fun hx => Or.inl hx
        · rintro (hx | ⟨_, rfl⟩)
          · exact hx
          · exact hin
    · refine ⟨{ trees := (ts.trees.set id none).set id (some 1), initialized := ts.initialized.insert id }, ?_, ?_, ?_⟩
      · simp only [BehaviourTrees.behaviour_scope, hget, tickScope, if_neg hin]
        rw [if_pos (by simpa using hlt)]
      · rw [List.set_set]
        refine ⟨by simpa using hlen, fun x hx => ?_, fun y hy => ?_⟩
        · by_cases hxi : x = id
          · subst hxi
            rw [List.get?_eq_getElem?, List.getElem?_set_eq_of_lt _ hlt]
            simp [List.mem_insert_iff]
          · rw [List.get?_eq_getElem?, List.getElem?_set_ne (fun hc => hxi hc.symm),
              ← List.get?_eq_getElem?]
            rw [hsl x hx]
            have : (x ∈ ts.initialized.insert id) = (x ∈ ts.initialized) := by
              simp [List.mem_insert_iff, hxi]
            simp only [this]
        · rcases List.mem_insert_iff.mp hy with h | h
          · omega
          · exact hmem y h
      · intro x
        simp only [List.mem_insert_iff]
        constructor
        · rintro (rfl | hx)
          · exact Or.inr ⟨hid, rfl⟩
          · exact Or.inl hx
        · rintro (hx | ⟨_, rfl⟩)
          · exact Or.inr hx
          · exact Or.inl rfl
  · have hnone : ts.trees.get? id = none := by
      rw [List.get?_eq_none]
      omega
    refine ⟨ts, ?_, ⟨hlen, hsl, hmem⟩, fun x => ?_⟩
    · simp only [BehaviourTrees.behaviour_scope, hnone]
    · constructor
      · exact fun hx => Or.inl hx
      · rintro (hx | ⟨h1, rfl⟩)
        · exact hx
        · omega

theorem foldScope_inv (n : Nat) :
    ∀ (L : List (Entity × Nat)) (ts : BehaviourTrees Nat), RegInv n ts →
      ∃ ts', L.foldlM (fun acc p => acc.behaviour_scope p.2 (tickScope p.2)) ts = some ts' ∧
        RegInv n ts' ∧
        (∀ x, x ∈ ts'.initialized ↔
          x ∈ ts.initialized ∨ (x < n ∧ x ∈ L.map Prod.snd)) := by
  intro L
  induction L with
  | nil =>
    intro ts hinv
    exact ⟨ts, rfl, hinv, by simp⟩
  | cons p rest ih =>
    intro ts hinv
    obtain ⟨ts1, hstep, hinv1, hiff1⟩ := scope_tick_step n ts p.2 hinv
    obtain ⟨ts', hfold, hinv', hiff'⟩ := ih ts1 hinv1
    refine ⟨ts', ?_, hinv', fun x => ?_⟩
    · rw [List.foldlM_cons, hstep]
      simpa using hfold
    · rw [hiff' x, hiff1 x]
      simp only [List.map_cons, List.mem_cons]
      constructor
      · rintro ((hx | ⟨h1, rfl⟩) | ⟨h1, h2⟩)
        · exact Or.inl hx
        · exact Or.inr ⟨h1, Or.inl rfl⟩
        · exact Or.inr ⟨h1, Or.inr h2⟩
      · rintro (hx | ⟨h1, (h2 | h2)⟩)
        · exact Or.inl (Or.inl hx)
        · subst h2
          exact Or.inl (Or.inr ⟨h1, rfl⟩)
        · exact Or.inr ⟨h1, h2⟩

theorem run_ticks_inv (n : Nat) (ts : BehaviourTrees Nat) (q : List (Entity × Nat))
    (hinv : RegInv n ts) :
    ∃ ts', run_ticks ts q = some ts' ∧ RegInv n ts' ∧
      (∀ x, x ∈ ts'.initialized ↔
        x ∈ ts.initialized ∨ (x < n ∧ x ∈ q.map Prod.snd)) := by
  obtain ⟨ts', h1, h2, h3⟩ := foldScope_inv n (sortByHandle q) ts hinv
  refine ⟨ts', h1, h2, fun x => ?_⟩
  rw [h3 x]
  have hm : (x ∈ (sortByHandle q).map Prod.snd) ↔ (x ∈ q.map Prod.snd) := by
    simp only [List.mem_map]
    constructor
    · rintro ⟨a, ha, rfl⟩
      exact ⟨a, (mem_sortByHandle a q).mp ha, rfl⟩
    · rintro ⟨a, ha, rfl⟩
      exact ⟨a, (mem_sortByHandle a q).mpr ha, rfl⟩
  rw [hm]

theorem runPasses_inv (n : Nat) :
    ∀ (passes : List (List (Entity × Nat))) (ts : BehaviourTrees Nat), RegInv n ts →
      ∃ ts', runPasses ts passes = some ts' ∧ RegInv n ts' ∧
        (∀ x, x ∈ ts'.initialized ↔
          x ∈ ts.initialized ∨ (x < n ∧ x ∈ passes.flatten.map Prod.snd)) := by
  intro passes
  induction passes with
  | nil =>
    intro ts hinv
    exact ⟨ts, rfl, hinv, by simp⟩
  | cons q rest ih =>
    intro ts hinv
    obtain ⟨ts1, h1, hinv1, hiff1⟩ := run_ticks_inv n ts q hinv
    obtain ⟨ts', h2, hinv', hiff'⟩ := ih ts1 hinv1
    refine ⟨ts', ?_, hinv', fun x => ?_⟩
    · simp only [runPasses, h1]
      exact h2
    · rw [hiff' x, hiff1 x]
      simp only [List.flatten_cons, List.map_append, List.mem_append]
      tauto

theorem regInv_initial (n : Nat) : RegInv n (initialTrees n) := by
  refine ⟨by simp [initialTrees], fun id hid => ?_, by simp [initialTrees]⟩
  simp [initialTrees, List.get?_eq_getElem?, List.getElem?_replicate, hid]

/-- C7: one-time initialization per handle. Starting from a fresh registry
of n trees and running any sequence of driver passes, every pass succeeds,
and for every valid handle the stored initialize-call counter is exactly 1
when some active subject of some pass referenced the handle and exactly 0
otherwise — one call in total, regardless of how many subjects or passes
referenced it; a handle is in the initialized set exactly when it is valid
and referenced; and once initialized, any number of further passes leaves
the counter at 1 (the handle is never initialized again). -/
theorem run_ticks_initializes_once (n : Nat) (passes : List (List (Entity × Nat))) :
    ∃ ts, runPasses (initialTrees n) passes = some ts ∧
      (∀ id, id < n →
        initCountAt ts id = some (if referencedIn passes id then 1 else 0)) ∧
      (∀ id, id ∈ ts.initialized ↔ (id < n ∧ referencedIn passes id)) ∧
      (∀ more, ∃ ts2, runPasses ts more = some ts2 ∧
        ∀ id, id < n → referencedIn passes id → initCountAt ts2 id = some 1) := by
  obtain ⟨ts, hrun, hinv, hiff⟩ := runPasses_inv n passes (initialTrees n) (regInv_initial n)
  have hmemiff : ∀ id, id ∈ ts.initialized ↔ (id < n ∧ referencedIn passes id) := by
    intro id
    rw [hiff id]
    simp only [initialTrees, List.not_mem_nil, false_or, referencedIn]
  refine ⟨ts, hrun, ?_, hmemiff, ?_⟩
  · intro id hid
    have hslot := hinv.2.1 id hid
    simp only [initCountAt, hslot]
    by_cases h : referencedIn passes id
    · rw [if_pos ((hmemiff id).mpr ⟨hid, h⟩), if_pos h]
    · rw [if_neg (fun hc => h ((hmemiff id).mp hc).2), if_neg h]
  · intro more
    obtain ⟨ts2, hrun2, hinv2, hiff2⟩ := runPasses_inv n more ts hinv
    refine ⟨ts2, hrun2, fun id hid href => ?_⟩
    have hslot := hinv2.2.1 id hid
    simp only [initCountAt, hslot]
    have hidin2 : id ∈ ts2.initialized :=
      (hiff2 id).mpr (Or.inl ((hmemiff id).mpr ⟨hid, href⟩))
    rw [if_pos hidin2]

/-- Witness for C7: a one-tree registry referenced by two different subjects
across two passes ends with the initialize-call counter at exactly 1. -/
theorem run_ticks_initializes_once_witness :
    ∃ ts, runPasses (initialTrees 1) [[(5, 0)], [(6, 0)]] = some ts ∧
      initCountAt ts 0 = some 1 ∧ (0 ∈ ts.initialized ↔ (0 < 1 ∧ True)) := by
  obtain ⟨ts, hrun, hcount, hmem, _⟩ :=
    run_ticks_initializes_once 1 [[(5, 0)], [(6, 0)]]
  have href : referencedIn [[(5, 0)], [(6, 0)]] 0 := by decide
  refine ⟨ts, hrun, ?_, ?_⟩
  · have := hcount 0 (by decide)
    rwa [if_pos href] at this
  · rw [hmem 0]
    simp [href]
